import Mathlib

/-!
Shallow embedding of `sexpr_parser` (src/src/lib.rs): a tokenizer splitting
text into tokens around a configurable set of single-character symbols, an
s-expression tree type with read-only queries, and a cursor-based
recursive-descent parser.

Modelling conventions:
* Rust `Vec<String>` becomes `List String`; the cursor index `i : usize`
  becomes `Nat`.
* Rust `io::Result` errors are produced only by `errorize`, with exactly two
  message shapes (`lookahead`'s out-of-range message and `check`'s
  unexpected-token message); we model them as a structured error type
  `ParseError` carrying the same data the messages carry.
* Methods taking `&mut self` become state-passing functions returning the
  updated `Parser` alongside the result; a propagated error leaves the state
  exactly as the Rust code leaves it.
* `char::is_whitespace` and `str::to_lowercase` are modelled per character
  by `Char.isWhitespace` and `Char.toLower`, which agree with Rust on ASCII
  (all inputs appearing in the spec's scenarios are ASCII).
* The recursion in `tree_help` (and the loops in `tree_help` and
  `snag_symbols`) is general recursion in Rust; we embed it with a fuel
  parameter, `none` meaning the fuel ran out. Entry points supply fuel large
  enough that this never happens on their runs. The while-loop of
  `tree_help` is factored out as `tree_loop`, taking the subtree step
  (that is, `tree_help` itself at the next lower fuel) as a parameter so
  that both functions are structurally recursive on the fuel.
-/

/-- The two error shapes produced by `errorize` calls in the source:
`lookahead`'s "Token index '{index}'; {len} tokens available" and
`check`'s "Token '{expected}' expected, token '{actual}' encountered at
position {i}". -/
inductive ParseError where
  | outOfRange (index : Nat) (available : Nat)
  | unexpectedToken (expected : String) (actual : String) (position : Nat)
deriving DecidableEq, Repr

/-- Rust `str::to_lowercase`, modelled per character: `Char.toLower` applied
to each character of the string (this agrees with Rust on ASCII text). -/
def str_to_lowercase (s : String) : String :=
  ⟨s.data.map Char.toLower⟩

/-- `struct Tokenizer { pending: String, symbols: BTreeSet<char> }`.
The `BTreeSet` is only ever queried for membership, so a `List Char`
models it. -/
structure Tokenizer where
  pending : String
  symbols : List Char

/-- `Tokenizer::new`: empty pending accumulator, symbol set from the
characters of `symbols`. -/
def Tokenizer.new (symbols : String) : Tokenizer :=
  { pending := "", symbols := symbols.toList }

/-- `Tokenizer::add_pending`: if the accumulator is non-empty, push its
lower-cased contents as a token and clear it. -/
def Tokenizer.add_pending (t : Tokenizer) (tokens : List String) :
    Tokenizer × List String :=
  if t.pending.length > 0 then
    ({ t with pending := "" }, tokens ++ [str_to_lowercase t.pending])
  else
    (t, tokens)

/-- The body of the `for_each` closure in `Tokenizer::tokenize`: symbol-set
characters flush the accumulator and are emitted verbatim; whitespace
flushes the accumulator; anything else is appended to the accumulator. -/
def Tokenizer.tokenize_step (st : Tokenizer × List String) (c : Char) :
    Tokenizer × List String :=
  let (t, tokens) := st
  if c ∈ t.symbols then
    let (t, tokens) := t.add_pending tokens
    (t, tokens ++ [String.singleton c])
  else if c.isWhitespace then
    t.add_pending tokens
  else
    ({ t with pending := t.pending.push c }, tokens)

/-- `Tokenizer::tokenize`: fold the step over the characters of `text`,
then flush the accumulator one final time. -/
def Tokenizer.tokenize (t : Tokenizer) (text : String) :
    Tokenizer × List String :=
  let (t, tokens) := text.toList.foldl Tokenizer.tokenize_step (t, [])
  t.add_pending tokens

/-- `enum SexprTree { Sym(String), Sub(Vec<SexprTree>) }`. -/
inductive SexprTree where
  | Sym (s : String)
  | Sub (v : List SexprTree)

/-- `SexprTree::is`: true iff the tree is a `Sym` with exactly this text. -/
def SexprTree.is (t : SexprTree) (target : String) : Bool :=
  match t with
  | .Sub _ => false
  | .Sym s => s == target

/-- `SexprTree::head`: a `Sym`'s own text; a `Sub`'s first child's head,
`none` if it has no children (`v.get(0).and_then(|s| s.head())`). -/
def SexprTree.head : SexprTree → Option String
  | .Sym s => some s
  | .Sub [] => none
  | .Sub (t :: _) => t.head

/-- `SexprTree::flatten_help`: append every `Sym`'s text, depth-first
left-to-right, to the accumulator (`flattened.push` / iteration over the
children). -/
def SexprTree.flatten_help : SexprTree → List String → List String
  | .Sym s, acc => acc ++ [s]
  | .Sub [], acc => acc
  | .Sub (t :: ts), acc => (SexprTree.Sub ts).flatten_help (t.flatten_help acc)

/-- `SexprTree::flatten`: run `flatten_help` on an empty accumulator. -/
def SexprTree.flatten (t : SexprTree) : List String :=
  t.flatten_help []

/-- `struct Parser { tokens: Vec<String>, i: usize }`. -/
structure Parser where
  tokens : List String
  i : Nat
deriving DecidableEq, Repr

/-- `Parser::new`: tokenize the source with `(` and `)` as the symbol set,
start at position 0. -/
def Parser.new (src : String) : Parser :=
  { tokens := ((Tokenizer.new "()").tokenize src).2, i := 0 }

/-- `Parser::finished`: `self.i == self.tokens.len()`. -/
def Parser.finished (p : Parser) : Bool :=
  p.i == p.tokens.length

/-- `Parser::lookahead`: the token at `i + distance`, or the out-of-range
error carrying the attempted index and the token count. -/
def Parser.lookahead (p : Parser) (distance : Nat) : Except ParseError String :=
  let index := p.i + distance
  match p.tokens[index]? with
  | some s => .ok s
  | none => .error (.outOfRange index p.tokens.length)

/-- `Parser::token`: `lookahead(0)`. -/
def Parser.token (p : Parser) : Except ParseError String :=
  p.lookahead 0

/-- `Parser::advance_by`: `self.i += distance`, unconditionally. -/
def Parser.advance_by (p : Parser) (distance : Nat) : Parser :=
  { p with i := p.i + distance }

/-- `Parser::advance`: `advance_by(1)`. -/
def Parser.advance (p : Parser) : Parser :=
  p.advance_by 1

/-- `Parser::check`: read the current token; on mismatch fail with the
unexpected-token error (expected, actual, position) leaving the state
unchanged; on match advance by 1. -/
def Parser.check (p : Parser) (target_token : String) :
    Except ParseError Unit × Parser :=
  match p.token with
  | .error e => (.error e, p)
  | .ok actual =>
    if actual == target_token then (.ok (), p.advance)
    else (.error (.unexpectedToken target_token actual p.i), p)

/-- `Parser::at_close`: whether the current token is `")"`; propagates the
failure of `token` when the cursor has no current token. -/
def Parser.at_close (p : Parser) : Except ParseError Bool :=
  match p.token with
  | .error e => .error e
  | .ok s => .ok (s == ")")

/-- `Parser::snag`: return an owned copy of the current token and advance
by 1; propagates the failure of `token` with the state unchanged. -/
def Parser.snag (p : Parser) : Except ParseError String × Parser :=
  match p.token with
  | .error e => (.error e, p)
  | .ok tok => (.ok tok, p.advance)

/-- The `while !self.at_close()? { parts.push(self.tree_help()?); }` loop
inside `Parser::tree_help`, with fuel: collect subtrees until the current
token is `")"`, propagating any failure. `step` is the subtree parse,
instantiated by `tree_help` with itself at the next lower fuel. -/
def Parser.tree_loop
    (step : Parser → Option (Except ParseError (SexprTree × Parser))) :
    Nat → Parser → Option (Except ParseError (List SexprTree × Parser))
  | 0, _ => none
  | fuel + 1, p =>
    match p.at_close with
    | .error e => some (.error e)
    | .ok true => some (.ok ([], p))
    | .ok false =>
      match step p with
      | none => none
      | some (.error e) => some (.error e)
      | some (.ok (t, p1)) =>
        match Parser.tree_loop step fuel p1 with
        | none => none
        | some (.error e) => some (.error e)
        | some (.ok (ts, p2)) => some (.ok (t :: ts, p2))

/-- `Parser::tree_help`, with fuel for the general recursion: an exhausted
cursor yields an empty `Sub`; a `"("` token opens a group parsed by the
while-loop (`tree_loop`) and closed by an `advance` past the `")"`;
any other current token is snagged as a `Sym`. -/
def Parser.tree_help : Nat → Parser →
    Option (Except ParseError (SexprTree × Parser))
  | 0, _ => none
  | fuel + 1, p =>
    if p.finished then
      some (.ok (.Sub [], p))
    else
      match p.token with
      | .error e => some (.error e)
      | .ok s =>
        if s == "(" then
          match Parser.tree_loop (Parser.tree_help fuel) fuel p.advance with
          | none => none
          | some (.error e) => some (.error e)
          | some (.ok (parts, p1)) => some (.ok (.Sub parts, p1.advance))
        else
          match p.snag with
          | (.error e, _) => some (.error e)
          | (.ok tok, p1) => some (.ok (.Sym tok, p1))

/-- `Parser::build_parse_tree`: tokenize `src` and run `tree_help` from
position 0. The fuel `2 * tokens.length + 2` bounds the recursion depth:
each nesting level and each loop iteration past the first consumes at
least one token. -/
def Parser.build_parse_tree (src : String) :
    Option (Except ParseError SexprTree) :=
  let p := Parser.new src
  match Parser.tree_help (2 * p.tokens.length + 2) p with
  | none => none
  | some (.error e) => some (.error e)
  | some (.ok (t, _)) => some (.ok t)

/-- The `while !self.at_close()? { result.push(self.snag()?); }` loop inside
`Parser::snag_symbols`, with fuel. -/
def Parser.snag_loop : Nat → Parser →
    Option (Except ParseError (List String) × Parser)
  | 0, _ => none
  | fuel + 1, p =>
    match p.at_close with
    | .error e => some (.error e, p)
    | .ok true => some (.ok [], p)
    | .ok false =>
      match p.snag with
      | (.error e, p1) => some (.error e, p1)
      | (.ok s, p1) =>
        match Parser.snag_loop fuel p1 with
        | none => none
        | some (.error e, p2) => some (.error e, p2)
        | some (.ok rest, p2) => some (.ok (s :: rest), p2)

/-- `Parser::snag_symbols`: `check("(")`, collect snagged tokens until the
current token is `")"`, `check(")")`, return the collected tokens. The loop
consumes one token per iteration, so `tokens.length + 1` fuel suffices. -/
def Parser.snag_symbols (p : Parser) :
    Option (Except ParseError (List String) × Parser) :=
  match p.check "(" with
  | (.error e, p1) => some (.error e, p1)
  | (.ok _, p1) =>
    match Parser.snag_loop (p1.tokens.length + 1) p1 with
    | none => none
    | some (.error e, p2) => some (.error e, p2)
    | some (.ok syms, p2) =>
      match p2.check ")" with
      | (.error e, p3) => some (.error e, p3)
      | (.ok _, p3) => some (.ok syms, p3)

/-- The delimiter-removal filter used by the spec's flatten/tokenize
relation: drop the `"("` and `")"` tokens, keep everything else. -/
def filter_delims (tokens : List String) : List String :=
  tokens.filter (fun s => !(s == "(" || s == ")"))

/-- The spec's leftmost-descent relation (claim C7): `s` is the leftmost
leaf Symbol of the tree, reached by always descending into the first child
of a Group. -/
inductive LeftmostSym : SexprTree → String → Prop
  | sym (s : String) : LeftmostSym (.Sym s) s
  | sub (t : SexprTree) (ts : List SexprTree) (s : String) :
      LeftmostSym t s → LeftmostSym (.Sub (t :: ts)) s

/-- The scan step as the spec's words order it (claim C4): whitespace is
tested first and flushes the accumulator; then a symbol-set character
flushes the accumulator and is emitted verbatim; any other character is
appended to the accumulator. -/
def spec_tokenize_step (st : Tokenizer × List String) (c : Char) :
    Tokenizer × List String :=
  let (t, tokens) := st
  if c.isWhitespace then
    t.add_pending tokens
  else if c ∈ t.symbols then
    let (t, tokens) := t.add_pending tokens
    (t, tokens ++ [String.singleton c])
  else
    ({ t with pending := t.pending.push c }, tokens)

/-- Tokenization as described by claim C4's words, for the `(`/`)` symbol
set: scan with `spec_tokenize_step`, flushing the accumulator once at the
end. -/
def spec_tokenize (text : String) : List String :=
  (match text.toList.foldl spec_tokenize_step (Tokenizer.new "()", []) with
   | (t, tokens) => t.add_pending tokens).2

theorem SexprTree.flatten_help_eq : ∀ (t : SexprTree) (acc : List String),
    t.flatten_help acc = acc ++ t.flatten
  | .Sym s, acc => by
      simp [SexprTree.flatten_help, SexprTree.flatten]
  | .Sub [], acc => by
      simp [SexprTree.flatten_help, SexprTree.flatten]
  | .Sub (t :: ts), acc => by
      simp only [SexprTree.flatten_help, SexprTree.flatten]
      rw [SexprTree.flatten_help_eq (SexprTree.Sub ts) (t.flatten_help acc),
          SexprTree.flatten_help_eq t acc,
          SexprTree.flatten_help_eq (SexprTree.Sub ts) (t.flatten_help []),
          SexprTree.flatten_help_eq t []]
      simp

theorem SexprTree.flatten_Sub_cons (t : SexprTree) (ts : List SexprTree) :
    (SexprTree.Sub (t :: ts)).flatten = t.flatten ++ (SexprTree.Sub ts).flatten := by
  show SexprTree.flatten_help _ _ = _
  simp only [SexprTree.flatten_help]
  rw [SexprTree.flatten_help_eq, SexprTree.flatten_help_eq]
  simp

theorem Parser.token_eq_ok_iff (p : Parser) (s : String) :
    p.token = .ok s ↔ p.tokens[p.i]? = some s := by
  simp only [Parser.token, Parser.lookahead, Nat.add_zero]
  cases h : p.tokens[p.i]? <;> simp

theorem Parser.token_ok_lt (p : Parser) (s : String) (h : p.token = .ok s) :
    p.i < p.tokens.length := by
  rw [Parser.token_eq_ok_iff] at h
  exact (List.getElem?_eq_some_iff.mp h).1

theorem drop_cons_of_getElem? {l : List String} {j : Nat} {s : String}
    (h : l[j]? = some s) : l.drop j = s :: l.drop (j + 1) := by
  obtain ⟨hlt, he⟩ := List.getElem?_eq_some_iff.mp h
  rw [List.drop_eq_getElem_cons hlt, he]

theorem filter_delims_cons_open (l : List String) :
    filter_delims ("(" :: l) = filter_delims l := by
  simp [filter_delims, List.filter_cons]

theorem filter_delims_cons_close (l : List String) :
    filter_delims (")" :: l) = filter_delims l := by
  simp [filter_delims, List.filter_cons]

theorem filter_delims_cons_other (s : String) (l : List String)
    (h1 : s ≠ "(") (h2 : s ≠ ")") :
    filter_delims (s :: l) = s :: filter_delims l := by
  simp [filter_delims, List.filter_cons, h1, h2]

/-- Specification of a successful `tree_loop` run, given a specification of
the subtree step: the cursor never moves backwards, stops on a `")"`
current token inside the sequence, the token sequence is unchanged, and the
flattened collected subtrees account exactly for the non-delimiter tokens
of the consumed segment. -/
theorem tree_loop_spec
    (step : Parser → Option (Except ParseError (SexprTree × Parser)))
    (hstep : ∀ (p : Parser) (t : SexprTree) (p1 : Parser),
      step p = some (.ok (t, p1)) →
      (∀ s, p.token = .ok s → s ≠ ")") →
      p1.tokens = p.tokens ∧ p.i ≤ p1.i ∧ p1.i ≤ p.tokens.length ∧
      filter_delims (p.tokens.drop p.i) =
        t.flatten ++ filter_delims (p.tokens.drop p1.i)) :
    ∀ (fuel : Nat) (p : Parser) (ts : List SexprTree) (p1 : Parser),
      Parser.tree_loop step fuel p = some (.ok (ts, p1)) →
      p1.tokens = p.tokens ∧ p.i ≤ p1.i ∧ p1.i < p.tokens.length ∧
      p1.token = .ok ")" ∧
      filter_delims (p.tokens.drop p.i) =
        (SexprTree.Sub ts).flatten ++ filter_delims (p.tokens.drop p1.i) := by
  intro fuel
  induction fuel with
  | zero =>
    intro p ts p1 h
    simp [Parser.tree_loop] at h
  | succ fuel ih =>
    intro p ts p1 h
    rw [Parser.tree_loop] at h
    split at h
    · exact absurd h (by simp)
    · -- at_close true: stop, cursor unchanged
      rename_i hac
      simp only [Option.some.injEq, Except.ok.injEq, Prod.mk.injEq] at h
      obtain ⟨hts, hp⟩ := h
      subst hts; subst hp
      have htokc : p.token = .ok ")" := by
        unfold Parser.at_close at hac
        split at hac
        · exact absurd hac (by simp)
        · rename_i s htok
          simp only [Except.ok.injEq] at hac
          have : s = ")" := by simpa using hac
          rwa [this] at htok
      refine ⟨rfl, le_refl _, Parser.token_ok_lt p ")" htokc, htokc, ?_⟩
      simp [SexprTree.flatten, SexprTree.flatten_help]
    · -- at_close false: parse one subtree, continue the loop
      rename_i hac
      have hgp : ∀ s, p.token = .ok s → s ≠ ")" := by
        intro s htok
        unfold Parser.at_close at hac
        rw [htok] at hac
        simp only [Except.ok.injEq] at hac
        simpa using hac
      split at h
      · exact absurd h (by simp)
      · exact absurd h (by simp)
      · rename_i t pmid hhelp
        split at h
        · exact absurd h (by simp)
        · exact absurd h (by simp)
        · rename_i ts' pend hloop
          simp only [Option.some.injEq, Except.ok.injEq, Prod.mk.injEq] at h
          obtain ⟨hts, hp⟩ := h
          subst hts; subst hp
          obtain ⟨htk1, hle1, hlt1, hfil1⟩ := hstep p t pmid hhelp hgp
          obtain ⟨htk2, hle2, hlt2, htokc2, hfil2⟩ := ih pmid ts' pend hloop
          rw [htk1] at htk2 hlt2 hfil2
          refine ⟨htk2, le_trans hle1 hle2, hlt2, htokc2, ?_⟩
          rw [hfil1, hfil2, SexprTree.flatten_Sub_cons]
          simp [List.append_assoc]

/-- Specification of a successful `tree_help` run: provided the entry token
is not `")"`, the cursor never moves backwards or past the end, the token
sequence is unchanged, and the flattened resulting tree accounts exactly
for the non-delimiter tokens of the consumed segment. -/
theorem tree_help_spec : ∀ (fuel : Nat) (p : Parser) (t : SexprTree) (p1 : Parser),
    Parser.tree_help fuel p = some (.ok (t, p1)) →
    (∀ s, p.token = .ok s → s ≠ ")") →
    p1.tokens = p.tokens ∧ p.i ≤ p1.i ∧ p1.i ≤ p.tokens.length ∧
    filter_delims (p.tokens.drop p.i) =
      t.flatten ++ filter_delims (p.tokens.drop p1.i) := by
  intro fuel
  induction fuel with
  | zero =>
    intro p t p1 h
    simp [Parser.tree_help] at h
  | succ fuel ih =>
    intro p t p1 h hg
    rw [Parser.tree_help] at h
    split at h
    · -- finished: empty Sub, cursor unchanged
      rename_i hfin
      simp only [Option.some.injEq, Except.ok.injEq, Prod.mk.injEq] at h
      obtain ⟨ht, hp⟩ := h
      subst ht; subst hp
      have hi : p.i = p.tokens.length := by
        simpa [Parser.finished] using hfin
      refine ⟨rfl, le_refl _, le_of_eq hi,
        by simp [SexprTree.flatten, SexprTree.flatten_help]⟩
    · -- not finished: case on the current token
      rename_i hfin
      split at h
      · exact absurd h (by simp)
      · rename_i s htok
        split at h
        · -- current token "(" : group branch
          rename_i hs
          have hs' : s = "(" := by simpa using hs
          subst hs'
          split at h
          · exact absurd h (by simp)
          · exact absurd h (by simp)
          · rename_i parts pmid hloop
            simp only [Option.some.injEq, Except.ok.injEq, Prod.mk.injEq] at h
            obtain ⟨ht, hp⟩ := h
            subst ht; subst hp
            obtain ⟨ltk, lle, llt, ltokc, lfil⟩ :=
              tree_loop_spec (Parser.tree_help fuel) ih fuel p.advance parts pmid hloop
            have hadv_tokens : p.advance.tokens = p.tokens := rfl
            have hadv_i : p.advance.i = p.i + 1 := rfl
            rw [hadv_tokens] at ltk llt lfil
            rw [hadv_i] at lle lfil
            have hopen : p.tokens[p.i]? = some "(" :=
              (Parser.token_eq_ok_iff p "(").mp htok
            have hclose : p.tokens[pmid.i]? = some ")" := by
              have := (Parser.token_eq_ok_iff pmid ")").mp ltokc
              rwa [ltk] at this
            refine ⟨by simpa using ltk, ?_, ?_, ?_⟩
            · show p.i ≤ pmid.i + 1
              omega
            · show pmid.i + 1 ≤ p.tokens.length
              omega
            · show filter_delims (p.tokens.drop p.i) =
                (SexprTree.Sub parts).flatten ++
                  filter_delims (p.tokens.drop (pmid.i + 1))
              rw [drop_cons_of_getElem? hopen, filter_delims_cons_open, lfil,
                  drop_cons_of_getElem? hclose, filter_delims_cons_close]
        · -- other token: snag it as a Sym
          rename_i hs
          have hs' : s ≠ "(" := by simpa using hs
          split at h
          · exact absurd h (by simp)
          · rename_i tok pmid hsnag
            simp only [Option.some.injEq, Except.ok.injEq, Prod.mk.injEq] at h
            obtain ⟨ht, hp⟩ := h
            subst ht; subst hp
            have hsnag' : (Except.ok tok, pmid) =
                ((.ok s : Except ParseError String), p.advance) := by
              rw [← hsnag]
              simp [Parser.snag, htok]
            simp only [Prod.mk.injEq, Except.ok.injEq] at hsnag'
            obtain ⟨hts, hpm⟩ := hsnag'
            subst hts; subst hpm
            have hcur : p.tokens[p.i]? = some tok :=
              (Parser.token_eq_ok_iff p tok).mp htok
            have hlt : p.i < p.tokens.length := Parser.token_ok_lt p tok htok
            refine ⟨rfl, by simp [Parser.advance, Parser.advance_by], ?_, ?_⟩
            · show p.i + 1 ≤ p.tokens.length
              omega
            · show filter_delims (p.tokens.drop p.i) =
                (SexprTree.Sym tok).flatten ++ filter_delims (p.tokens.drop (p.i + 1))
              rw [drop_cons_of_getElem? hcur,
                  filter_delims_cons_other tok _ hs' (hg tok htok)]
              simp [SexprTree.flatten, SexprTree.flatten_help]

/-- C1 counterexample: on input `"a b"` the parse succeeds but returns only
the first form, so its flatten misses the trailing token; on input `")"`
the parse succeeds with `Sym ")"`, whose flatten keeps a token the
delimiter filter removes. In both cases `flatten` differs from the
tokenization with the delimiter tokens removed. -/
theorem c1_flatten_counterexample :
    Parser.build_parse_tree "a b" = some (.ok (.Sym "a")) ∧
    (SexprTree.Sym "a").flatten ≠
      filter_delims ((Tokenizer.new "()").tokenize "a b").2 ∧
    Parser.build_parse_tree ")" = some (.ok (.Sym ")")) ∧
    (SexprTree.Sym ")").flatten ≠
      filter_delims ((Tokenizer.new "()").tokenize ")").2 := by
  refine ⟨rfl, ?_, rfl, ?_⟩ <;>
    simp [SexprTree.flatten, SexprTree.flatten_help] <;> decide

/-- C1 (amended): if `tree_help` (as run by `build_parse_tree`) succeeds
with the final cursor exhausted, and the token sequence does not begin with
`")"`, then `build_parse_tree` succeeds with this tree and its flatten is
exactly the tokenization of `s` with the `"("`/`")"` tokens removed. -/
theorem c1_flatten_eq_filtered_tokens (s : String) (t : SexprTree) (p1 : Parser)
    (h : Parser.tree_help (2 * (Parser.new s).tokens.length + 2) (Parser.new s) =
      some (.ok (t, p1)))
    (hfin : p1.finished = true)
    (hhead : (Parser.new s).tokens[0]? ≠ some ")") :
    Parser.build_parse_tree s = some (.ok t) ∧
    t.flatten = filter_delims ((Tokenizer.new "()").tokenize s).2 := by
  constructor
  · simp only [Parser.build_parse_tree]
    rw [h]
  · have hg : ∀ s', (Parser.new s).token = .ok s' → s' ≠ ")" := by
      intro s' htok
      rw [Parser.token_eq_ok_iff] at htok
      intro hcontra
      rw [hcontra] at htok
      exact hhead htok
    obtain ⟨htk, _, _, hfil⟩ := tree_help_spec _ _ _ _ h hg
    have hi : p1.i = (Parser.new s).tokens.length := by
      have h2 : p1.i = p1.tokens.length := by simpa [Parser.finished] using hfin
      rwa [htk] at h2
    rw [hi, List.drop_length] at hfil
    have hdrop0 : (Parser.new s).tokens.drop (Parser.new s).i = (Parser.new s).tokens := rfl
    rw [hdrop0] at hfil
    have hres : filter_delims (Parser.new s).tokens = t.flatten := by
      rw [hfil]
      simp [filter_delims]
    exact hres.symm

/-- C1 witness: the amended theorem applied to the input `"(a)"`. -/
theorem c1_flatten_witness :
    Parser.build_parse_tree "(a)" = some (.ok (.Sub [.Sym "a"])) ∧
    (SexprTree.Sub [.Sym "a"]).flatten =
      filter_delims ((Tokenizer.new "()").tokenize "(a)").2 :=
  c1_flatten_eq_filtered_tokens "(a)" (.Sub [.Sym "a"]) (Parser.mk ["(", "a", ")"] 3)
    rfl rfl (by decide)

/-- C3: parsing the unbalanced input `"(+ 1 2"` fails with the out-of-range
error propagated from `lookahead`, carrying the attempted token index 4 and
the total token count 4 — not a dedicated unbalanced-parentheses error. -/
theorem c3_unbalanced_fails_out_of_range :
    Parser.build_parse_tree "(+ 1 2" =
      some (.error (.outOfRange 4 4)) ∧
    ((Tokenizer.new "()").tokenize "(+ 1 2").2.length = 4 :=
  ⟨rfl, rfl⟩

/-- C5: `snag_symbols` on `"(* 2 3)"` expects `"("`, consumes the tokens as
opaque symbols until the `")"`, expects the `")"`, and returns
`["*", "2", "3"]` with the cursor exhausted (position 5 of 5 tokens). -/
theorem c5_snag_symbols_flat :
    Parser.snag_symbols (Parser.new "(* 2 3)") =
      some (.ok ["*", "2", "3"], Parser.mk ["(", "*", "2", "3", ")"] 5) ∧
    (Parser.mk ["(", "*", "2", "3", ")"] 5).finished = true :=
  ⟨rfl, rfl⟩

/-- C8: the empty string and an all-whitespace string both parse
successfully to an empty Group, not an error. -/
theorem c8_empty_and_whitespace_parse_to_empty_group :
    Parser.build_parse_tree "" = some (.ok (.Sub [])) ∧
    Parser.build_parse_tree "   " = some (.ok (.Sub [])) :=
  ⟨rfl, rfl⟩

/-- C9: `build_parse_tree` does not require full consumption: on `"a b"` it
succeeds with only the first form `Sym "a"`, the underlying `tree_help` run
stopping at position 1 with the token `"b"` still unconsumed (the final
cursor is not finished). -/
theorem c9_trailing_tokens_ignored :
    Parser.build_parse_tree "a b" = some (.ok (.Sym "a")) ∧
    Parser.tree_help (2 * (Parser.new "a b").tokens.length + 2) (Parser.new "a b") =
      some (.ok (.Sym "a", Parser.mk ["a", "b"] 1)) ∧
    (Parser.mk ["a", "b"] 1).finished = false :=
  ⟨rfl, rfl, rfl⟩

/-- C2 counterexample: `advance_by` moves the position unconditionally, so
starting from a valid cursor (`"a"` tokenizes to one token, position 0),
`advance_by 2` leaves the position at 2, strictly beyond the token count 1:
the `[0, len]` invariant is not preserved by every cursor operation. -/
theorem c2_position_invariant_counterexample :
    (Parser.new "a").i ≤ (Parser.new "a").tokens.length ∧
    ((Parser.new "a").advance_by 2).tokens.length <
      ((Parser.new "a").advance_by 2).i :=
  ⟨by decide, by decide⟩

/-- C2 (amended): starting from a position in `[0, len]`, the operations
`check` and `snag` preserve membership in `[0, len]`, and `advance_by n`
preserves it exactly when `n` does not exceed the remaining tokens (it is
unconditional and may move past the end otherwise); position = len is the
exhausted state. -/
theorem c2_cursor_position_invariant (p : Parser) (target : String) (n : Nat)
    (h : p.i ≤ p.tokens.length) :
    (p.check target).2.i ≤ (p.check target).2.tokens.length ∧
    p.snag.2.i ≤ p.snag.2.tokens.length ∧
    (p.i + n ≤ p.tokens.length →
      (p.advance_by n).i ≤ (p.advance_by n).tokens.length) ∧
    (p.finished = true ↔ p.i = p.tokens.length) := by
  refine ⟨?_, ?_, ?_, ?_⟩
  · simp only [Parser.check]
    cases htok : p.token with
    | error e => simpa using h
    | ok actual =>
      by_cases he : actual == target
      · have hlt := Parser.token_ok_lt p actual htok
        simp only [he, if_true]
        show p.advance.i ≤ p.advance.tokens.length
        simp only [Parser.advance, Parser.advance_by]
        omega
      · simp only [he, if_false]
        simpa using h
  · simp only [Parser.snag]
    cases htok : p.token with
    | error e => simpa using h
    | ok tok =>
      have hlt := Parser.token_ok_lt p tok htok
      show p.advance.i ≤ p.advance.tokens.length
      simp only [Parser.advance, Parser.advance_by]
      omega
  · intro hn
    simpa [Parser.advance_by] using hn
  · simp [Parser.finished]

/-- C2 witness: the amended theorem applied to the cursor over `"(a"`. -/
theorem c2_cursor_witness :
    ((Parser.new "(a").check ")").2.i ≤
      ((Parser.new "(a").check ")").2.tokens.length :=
  (c2_cursor_position_invariant (Parser.new "(a") ")" 1 (by decide)).1

/-- C6: `check` reads the current token; on mismatch it fails with the
unexpected-token error carrying the expected value, the actual value and
the current position, returning the cursor unchanged; on match it advances
the position by 1 (same token sequence) and succeeds. -/
theorem c6_check_expect_behavior (p : Parser) (target actual : String)
    (h : p.token = .ok actual) :
    (actual ≠ target →
      p.check target = (.error (.unexpectedToken target actual p.i), p)) ∧
    (actual = target →
      p.check target = (.ok (), p.advance) ∧
      p.advance.i = p.i + 1 ∧ p.advance.tokens = p.tokens) := by
  constructor
  · intro hne
    simp only [Parser.check]
    rw [h]
    simp [hne]
  · intro he
    subst he
    simp only [Parser.check]
    rw [h]
    simp [Parser.advance, Parser.advance_by]

/-- C6 witness: the spec's own scenario, `expect(")")` against current
token `"+"`. -/
theorem c6_check_witness :
    (Parser.mk ["+"] 0).check ")" =
      (.error (.unexpectedToken ")" "+" 0), Parser.mk ["+"] 0) :=
  (c6_check_expect_behavior (Parser.mk ["+"] 0) ")" "+" rfl).1 (by decide)

theorem head_eq_some_iff_leftmost : ∀ (t : SexprTree) (s : String),
    t.head = some s ↔ LeftmostSym t s
  | .Sym a, s => by
      constructor
      · intro h
        simp only [SexprTree.head, Option.some.injEq] at h
        subst h
        exact .sym a
      · intro h
        cases h
        rfl
  | .Sub [], s => by
      constructor
      · intro h
        simp [SexprTree.head] at h
      · intro h
        cases h
  | .Sub (t :: ts), s => by
      rw [show (SexprTree.Sub (t :: ts)).head = t.head from rfl,
          head_eq_some_iff_leftmost t s]
      constructor
      · intro h
        exact .sub t ts s h
      · intro h
        cases h
        assumption

/-- C7: `head` returns `some s` exactly when `s` is the leftmost leaf
Symbol reached by always descending into the first child of a Group; on a
Symbol it returns that Symbol's own text, and on an empty Group (anywhere
along the descent, by the characterization) it returns `none`. `head`,
`is` and `flatten` are total Lean functions, so they never fail. -/
theorem c7_head_is_leftmost_descent :
    (∀ (t : SexprTree) (s : String), t.head = some s ↔ LeftmostSym t s) ∧
    (∀ s : String, (SexprTree.Sym s).head = some s) ∧
    (SexprTree.Sub []).head = none :=
  ⟨head_eq_some_iff_leftmost, fun _ => rfl, rfl⟩

/-- C10: `finished` is true exactly when the position equals the token
count; in particular a position strictly beyond the token count (which
`advance_by` permits) makes `finished` report `false` even though no
tokens remain. -/
theorem c10_finished_exactly_at_end (p : Parser) :
    (p.finished = true ↔ p.i = p.tokens.length) ∧
    (p.tokens.length < p.i → p.finished = false) := by
  constructor
  · simp [Parser.finished]
  · intro hlt
    simp only [Parser.finished, beq_eq_false_iff_ne, ne_eq]
    omega

/-- C10 witness: after overshooting the single-token sequence of `"a"` to
position 2, `finished` is false. -/
theorem c10_finished_witness :
    ((Parser.new "a").advance_by 2).finished = false :=
  (c10_finished_exactly_at_end ((Parser.new "a").advance_by 2)).2 (by decide)

theorem Tokenizer.add_pending_symbols (t : Tokenizer) (tokens : List String) :
    (t.add_pending tokens).1.symbols = t.symbols := by
  simp only [Tokenizer.add_pending]
  split <;> rfl

theorem spec_tokenize_step_symbols (st : Tokenizer × List String) (c : Char) :
    (spec_tokenize_step st c).1.symbols = st.1.symbols := by
  obtain ⟨t, tokens⟩ := st
  simp only [spec_tokenize_step]
  split
  · exact Tokenizer.add_pending_symbols t tokens
  · split
    · exact Tokenizer.add_pending_symbols t tokens
    · rfl

theorem tokenize_step_eq_spec_step (st : Tokenizer × List String) (c : Char)
    (hsym : st.1.symbols = ['(', ')']) :
    Tokenizer.tokenize_step st c = spec_tokenize_step st c := by
  obtain ⟨t, tokens⟩ := st
  simp only [Tokenizer.tokenize_step, spec_tokenize_step]
  by_cases hw : c.isWhitespace
  · have hns : c ∉ t.symbols := by
      rw [hsym]
      intro hmem
      have hc : c = '(' ∨ c = ')' := by simpa using hmem
      rcases hc with h1 | h1 <;> (rw [h1] at hw; exact absurd hw (by decide))
    simp [hw, hns]
  · by_cases hm : c ∈ t.symbols
    · simp [hw, hm]
    · simp [hw, hm]

theorem tokenize_fold_eq_spec_fold (cs : List Char) :
    ∀ (t : Tokenizer) (tokens : List String), t.symbols = ['(', ')'] →
    cs.foldl Tokenizer.tokenize_step (t, tokens) =
      cs.foldl spec_tokenize_step (t, tokens) := by
  induction cs with
  | nil =>
    intro t tokens _
    rfl
  | cons c cs ih =>
    intro t tokens h
    simp only [List.foldl_cons]
    rw [tokenize_step_eq_spec_step (t, tokens) c h]
    have hpres : (spec_tokenize_step (t, tokens) c).1.symbols = ['(', ')'] := by
      rw [spec_tokenize_step_symbols]
      exact h
    have hres := ih (spec_tokenize_step (t, tokens) c).1
      (spec_tokenize_step (t, tokens) c).2 hpres
    simpa using hres

/-- C4: the tokenizer configured with the `(`/`)` symbol set computes
exactly the scan the spec's words describe: character by character with a
pending accumulator, whitespace flushing the (lower-cased) accumulator and
being discarded, a symbol-set character flushing the accumulator and then
being emitted verbatim as its own one-character token, any other character
being appended to the accumulator, and a final flush after the last
character. -/
theorem c4_tokenize_matches_spec_scan (text : String) :
    ((Tokenizer.new "()").tokenize text).2 = spec_tokenize text := by
  simp only [Tokenizer.tokenize, spec_tokenize]
  rw [tokenize_fold_eq_spec_fold text.toList (Tokenizer.new "()") [] rfl]
